import Mathlib

/-!
Verification development for the pubnet publication-network library.

The definitions below are a shallow embedding of the Python source:

* `mult`, `overlapCount`, `overlapEntries` embed `NumpyEdge.overlap`
  (src/pubnet/network/_edge/numpy_edge.py, lines 143-198): the scipy
  pipeline builds a duplicate-summing sparse adjacency matrix `A` from the
  edge pairs (the column selected by the `id` argument first), computes
  `A @ A.T`, subtracts its diagonal, keeps the upper triangle and the
  entries whose value is non-zero (scipy cancellation of exact zeros in
  `csr - csr`), and exposes the value as the feature `"overlap"`.
  Identifiers are machine integers in the source; they are embedded as
  `Nat` (ids are non-negative and no arithmetic overflows are reachable
  for counts bounded by the edge-list length).
* `Net`, `sliceNet`, `updateNet`, `selectRoot` embed the `PubNet`
  container (src/pubnet/network/__init__.py).
* `ids_where`, `ids_containing` embed `PubNet.ids_where` and
  `PubNet.ids_containing`.
* `similarityCall` embeds `Edge.similarity`
  (src/pubnet/network/_edge/_base.py, lines 206-237).
-/

namespace PubNet

/-! ## Neighbor overlap (`NumpyEdge.overlap`)

An edge list is a `List (Nat × Nat)` of `(primary, secondary)` pairs; the
primary component is the column named by the `id` argument of `overlap`
(the source helper `_column_to_indices` swaps the two columns when `id`
names the end column, so orienting the pairs up front loses nothing). -/

/-- Entry `A[i, k]` of the sparse adjacency matrix: `coo_matrix` followed by
`tocsr()` sums the unit weights of duplicate `(i, k)` pairs, so the entry is
the number of occurrences of the pair in the edge list. -/
def mult (edges : List (Nat × Nat)) (i k : Nat) : Nat :=
  (edges.filter (fun e => decide (e.1 = i ∧ e.2 = k))).length

/-- Entry `(i, j)` of `adj @ adj.T`: the sum over the secondary ids `k` of
`A[i, k] * A[j, k]`.  Summing over the deduplicated list of secondary values
covers every column of the sparse matrix that can contribute. -/
def overlapCount (edges : List (Nat × Nat)) (i j : Nat) : Nat :=
  (((edges.map Prod.snd).dedup).map (fun k => mult edges i k * mult edges j k)).sum

/-- The distinct primary ids: the row space of the adjacency matrix. -/
def primaryIds (edges : List (Nat × Nat)) : List Nat :=
  (edges.map Prod.fst).dedup

/-- All candidate `(i, j)` positions of the product matrix. -/
def pairCandidates (edges : List (Nat × Nat)) : List (Nat × Nat) :=
  (primaryIds edges).flatMap (fun i => (primaryIds edges).map (fun j => (i, j)))

/-- The rows `(i, j, overlap)` of the edge set returned by
`NumpyEdge.overlap`: `sp.triu(res - sp.diags(res.diagonal()))` keeps the
positions `i ≤ j`, the exact cancellation on the diagonal is pruned by
scipy's canonical `csr` subtraction, and `tocoo()` lists the remaining
non-zero entries. -/
def overlapEntries (edges : List (Nat × Nat)) : List (Nat × Nat × Nat) :=
  (pairCandidates edges).filterMap (fun p =>
    let v := overlapCount edges p.1 p.2 -
      (if p.1 = p.2 then overlapCount edges p.1 p.1 else 0)
    if p.1 ≤ p.2 ∧ v ≠ 0 then some (p.1, p.2, v) else none)

/-- Neighbors of a primary id `i`: the secondary ids it is connected to. -/
def nbrs (edges : List (Nat × Nat)) (i : Nat) : Finset Nat :=
  ((edges.filter (fun e => decide (e.1 = i))).map Prod.snd).toFinset

lemma mem_nbrs {edges : List (Nat × Nat)} {i k : Nat} :
    k ∈ nbrs edges i ↔ (i, k) ∈ edges := by
  unfold nbrs
  simp only [List.mem_toFinset, List.mem_map, List.mem_filter,
    decide_eq_true_eq]
  constructor
  · rintro ⟨e, ⟨he, h1⟩, h2⟩
    have : e = (i, k) := by
      cases e; simp_all
    simpa [this] using he
  · intro h
    exact ⟨(i, k), ⟨h, by simp⟩, rfl⟩

lemma mult_cons (e : Nat × Nat) (l : List (Nat × Nat)) (i k : Nat) :
    mult (e :: l) i k = (if e = (i, k) then 1 else 0) + mult l i k := by
  unfold mult
  rw [List.filter_cons]
  by_cases h : e = (i, k)
  · subst h; simp [Nat.add_comm]
  · have : ¬(e.1 = i ∧ e.2 = k) := by
      cases e; simpa [Prod.ext_iff] using h
    simp [this, h]

lemma mult_of_nodup {edges : List (Nat × Nat)} (h : edges.Nodup) (i k : Nat) :
    mult edges i k = if (i, k) ∈ edges then 1 else 0 := by
  induction edges with
  | nil => simp [mult]
  | cons e l ih =>
    rw [List.nodup_cons] at h
    rw [mult_cons, ih h.2]
    by_cases he : e = (i, k)
    · subst he
      simp [h.1]
    · simp [he, Ne.symm he]

lemma sum_map_indicator (l : List Nat) (p : Nat → Prop) [DecidablePred p] :
    (l.map (fun k => if p k then 1 else 0)).sum = (l.filter (fun k => decide (p k))).length := by
  induction l with
  | nil => simp
  | cons a l ih =>
    by_cases h : p a <;> simp [h, ih, Nat.add_comm]

lemma mem_primaryIds {edges : List (Nat × Nat)} {i : Nat} :
    i ∈ primaryIds edges ↔ ∃ k, (i, k) ∈ edges := by
  unfold primaryIds
  simp only [List.mem_dedup, List.mem_map]
  constructor
  · rintro ⟨e, he, rfl⟩
    exact ⟨e.2, by simpa using he⟩
  · rintro ⟨k, hk⟩
    exact ⟨(i, k), hk, rfl⟩

lemma mult_ne_zero {edges : List (Nat × Nat)} {i k : Nat}
    (h : mult edges i k ≠ 0) : (i, k) ∈ edges := by
  unfold mult at h
  rcases List.length_pos_iff_exists_mem.mp (Nat.pos_of_ne_zero h) with ⟨e, he⟩
  rw [List.mem_filter] at he
  have h2 := he.2
  simp only [decide_eq_true_eq] at h2
  have : e = (i, k) := by cases e; simp_all
  exact this ▸ he.1

lemma overlapCount_ne_zero {edges : List (Nat × Nat)} {i j : Nat}
    (h : overlapCount edges i j ≠ 0) :
    i ∈ primaryIds edges ∧ j ∈ primaryIds edges := by
  unfold overlapCount at h
  have : ∃ x ∈ ((edges.map Prod.snd).dedup).map
      (fun k => mult edges i k * mult edges j k), x ≠ 0 := by
    by_contra hc
    push_neg at hc
    exact h (List.sum_eq_zero hc)
  rcases this with ⟨x, hx, hxne⟩
  rcases List.mem_map.mp hx with ⟨k, _, rfl⟩
  have hi : mult edges i k ≠ 0 := fun h0 => hxne (by simp [h0])
  have hj : mult edges j k ≠ 0 := fun h0 => hxne (by simp [h0])
  exact ⟨mem_primaryIds.mpr ⟨k, mult_ne_zero hi⟩,
    mem_primaryIds.mpr ⟨k, mult_ne_zero hj⟩⟩

lemma overlapCount_eq_card {edges : List (Nat × Nat)} (h : edges.Nodup)
    (i j : Nat) :
    overlapCount edges i j = ((nbrs edges i) ∩ (nbrs edges j)).card := by
  unfold overlapCount
  have hmap : ((edges.map Prod.snd).dedup).map
      (fun k => mult edges i k * mult edges j k) =
      ((edges.map Prod.snd).dedup).map
      (fun k => if (i, k) ∈ edges ∧ (j, k) ∈ edges then 1 else 0) := by
    apply List.map_congr_left
    intro k _
    rw [mult_of_nodup h, mult_of_nodup h]
    by_cases h1 : (i, k) ∈ edges <;> by_cases h2 : (j, k) ∈ edges <;>
      simp [h1, h2]
  rw [hmap, sum_map_indicator]
  have hnd : (((edges.map Prod.snd).dedup).filter
      (fun k => decide ((i, k) ∈ edges ∧ (j, k) ∈ edges))).Nodup :=
    (List.nodup_dedup _).filter _
  rw [← List.toFinset_card_of_nodup hnd]
  congr 1
  ext x
  simp only [List.mem_toFinset, List.mem_filter, List.mem_dedup,
    decide_eq_true_eq, Finset.mem_inter, mem_nbrs]
  constructor
  · rintro ⟨-, h1, h2⟩
    exact ⟨h1, h2⟩
  · rintro ⟨h1, h2⟩
    exact ⟨List.mem_map.mpr ⟨(i, x), h1, rfl⟩, h1, h2⟩

lemma mem_overlapEntries {edges : List (Nat × Nat)} {i j v : Nat} :
    (i, j, v) ∈ overlapEntries edges ↔
      i < j ∧ v = overlapCount edges i j ∧ v ≠ 0 := by
  unfold overlapEntries
  rw [List.mem_filterMap]
  constructor
  · rintro ⟨p, hp, hf⟩
    obtain ⟨a, b⟩ := p
    dsimp only at hf
    by_cases hc : a ≤ b ∧ (overlapCount edges a b -
        (if a = b then overlapCount edges a a else 0)) ≠ 0
    · rw [if_pos hc] at hf
      obtain ⟨h1, h2, h3⟩ : a = i ∧ b = j ∧
          (overlapCount edges a b -
            (if a = b then overlapCount edges a a else 0)) = v := by
        simpa [Prod.ext_iff] using hf
      subst h1
      subst h2
      have hne : a ≠ b := by
        intro he
        subst he
        simp [Nat.sub_self] at hc
      rw [if_neg hne, Nat.sub_zero] at h3
      rw [if_neg hne, Nat.sub_zero] at hc
      exact ⟨lt_of_le_of_ne hc.1 hne, h3.symm, h3 ▸ hc.2⟩
    · rw [if_neg hc] at hf
      exact absurd hf (by simp)
  · rintro ⟨hlt, hev, hv⟩
    have hne : i ≠ j := Nat.ne_of_lt hlt
    have hmem := overlapCount_ne_zero (hev ▸ hv)
    refine ⟨(i, j), ?_, ?_⟩
    · unfold pairCandidates
      rw [List.mem_flatMap]
      exact ⟨i, hmem.1, List.mem_map.mpr ⟨j, hmem.2, rfl⟩⟩
    · dsimp only
      rw [if_neg hne, Nat.sub_zero]
      rw [if_pos ⟨Nat.le_of_lt hlt, hev ▸ hv⟩, ← hev]

/-- The three-node fixture of the spec: node A = 1 connects to publications
P1 = 1 and P2 = 2, node B = 2 connects to P1, P2 and P3 = 3, node C = 3
connects to P3 only.  Pairs are `(node, publication)` with the node column
primary, matching `overlap` called on the node endpoint type. -/
def fixtureEdges : List (Nat × Nat) :=
  [(1, 1), (1, 2), (2, 1), (2, 2), (2, 3), (3, 3)]

/-- C2: every row of the edge set returned by `overlap` has distinct
endpoints in strictly increasing order, a strictly positive overlap value,
and the reversed pair is never also emitted. -/
theorem overlap_upper_triangular (edges : List (Nat × Nat)) (i j v : Nat)
    (h : (i, j, v) ∈ overlapEntries edges) :
    i ≠ j ∧ i < j ∧ 0 < v ∧ ∀ w, (j, i, w) ∉ overlapEntries edges := by
  obtain ⟨hlt, hev, hv⟩ := mem_overlapEntries.mp h
  refine ⟨Nat.ne_of_lt hlt, hlt, Nat.pos_of_ne_zero hv, ?_⟩
  intro w hw
  obtain ⟨hlt2, -, -⟩ := mem_overlapEntries.mp hw
  exact Nat.lt_asymm hlt hlt2

/-- C2 witness: the theorem applied to the concrete two-edge set
`[(1,1), (2,1)]`, whose overlap result is `[(1, 2, 1)]`. -/
theorem overlap_upper_triangular_witness :
    (1 : Nat) ≠ 2 ∧ (1 : Nat) < 2 ∧ (0 : Nat) < 1 ∧
      ∀ w, (2, 1, w) ∉ overlapEntries [(1, 1), (2, 1)] :=
  overlap_upper_triangular [(1, 1), (2, 1)] 1 2 1 (by decide)

/-- C1 counterexample: with A = 1, B = 2, C = 3, P1 = 1, P2 = 2, P3 = 3,
nodes B and C share the neighbor P3, so the overlap result on the fixture
does contain a pair for (B, C) — with count 1 — contradicting the claim
that the result contains no pair (B, C). -/
theorem overlap_fixture_contains_BC :
    (2, 3, 1) ∈ overlapEntries fixtureEdges := by decide

/-- C1 (amended): for a duplicate-free edge set, `overlap` emits exactly the
ordered pairs `i < j` with a strictly positive number of shared neighbors,
the feature value being that number; on the fixture the result contains
(A, B) with count 2, contains no (A, C) pair in either order, and contains
(B, C) with count 1 (rather than no (B, C) pair at all). -/
theorem overlap_counts_shared_neighbors :
    (∀ (edges : List (Nat × Nat)), edges.Nodup → ∀ i j v,
      ((i, j, v) ∈ overlapEntries edges ↔
        i < j ∧ v = ((nbrs edges i) ∩ (nbrs edges j)).card ∧ 0 < v))
    ∧ (1, 2, 2) ∈ overlapEntries fixtureEdges
    ∧ (∀ v, (1, 3, v) ∉ overlapEntries fixtureEdges)
    ∧ (∀ v, (3, 1, v) ∉ overlapEntries fixtureEdges)
    ∧ (2, 3, 1) ∈ overlapEntries fixtureEdges := by
  refine ⟨?_, by decide, ?_, ?_, by decide⟩
  · intro edges hnd i j v
    rw [mem_overlapEntries, overlapCount_eq_card hnd]
    constructor
    · rintro ⟨h1, h2, h3⟩
      exact ⟨h1, h2, Nat.pos_of_ne_zero h3⟩
    · rintro ⟨h1, h2, h3⟩
      exact ⟨h1, h2, Nat.pos_iff_ne_zero.mp h3⟩
  · intro v hv
    obtain ⟨-, hev, hvne⟩ := mem_overlapEntries.mp hv
    rw [show overlapCount fixtureEdges 1 3 = 0 from by decide] at hev
    exact hvne hev
  · intro v hv
    obtain ⟨hlt, -, -⟩ := mem_overlapEntries.mp hv
    exact absurd hlt (by decide)

/-- C1 witness: the amended characterization applied to the fixture at the
pair (A, B) = (1, 2): the shared-neighbor count of A and B is 2. -/
theorem overlap_counts_shared_neighbors_witness :
    (1 : Nat) < 2 ∧
      (2 : Nat) = ((nbrs fixtureEdges 1) ∩ (nbrs fixtureEdges 2)).card ∧
      (0 : Nat) < 2 :=
  (overlap_counts_shared_neighbors.1 fixtureEdges (by decide) 1 2 2).mp
    (by decide)

/-! ## The `PubNet` container

Node tables are embedded as lists of rows `(index id, payload)`: slicing
selects whole rows by the membership of their index id, so the remaining
feature columns of a row are collapsed into one opaque payload value.
Edge collections keep their `start_id` / `end_id` type tags and their rows
as `(start value, end value)` pairs.  The container mirrors `PubNet`:
separate key lists (`nodes`, `edges`) and data mappings (dicts, embedded
as association lists). -/

structure NodeTbl where
  rows : List (Nat × Nat)
deriving DecidableEq

structure EdgeC where
  startId : String
  endId : String
  rows : List (Nat × Nat)
deriving DecidableEq

structure Net where
  root : String
  nodes : List String
  nodeData : List (String × NodeTbl)
  edges : List String
  edgeData : List (String × EdgeC)
deriving DecidableEq

/-- Lexicographic comparison of code-point lists, the order Python's
`sorted` uses on strings. -/
def natListLe : List Nat → List Nat → Bool
  | [], _ => true
  | _ :: _, [] => false
  | x :: xs, y :: ys =>
    if x < y then true else if y < x then false else natListLe xs ys

/-- String comparison by code points, as Python compares strings. -/
def strLe (a b : String) : Bool :=
  natListLe (a.data.map Char.toNat) (b.data.map Char.toNat)

/-- Embeds `edge_key` (src/pubnet/network/_utils.py): the two type names
sorted and joined with the delimiter. -/
def edgeKey (a b : String) : String :=
  if strLe a b then a ++ "-" ++ b else b ++ "-" ++ a

/-- Column lookup on an edge collection, as done by `Edge._column_to_int`:
the start column is checked first; a name matching neither raises a
`KeyError`, embedded as `none`. -/
def colOf (e : EdgeC) (name : String) : Option (List Nat) :=
  if name = e.startId then some (e.rows.map Prod.fst)
  else if name = e.endId then some (e.rows.map Prod.snd)
  else none

/-- One step of the edge loop of `PubNet._slice`: replace the edge with the
subset of its rows whose value in the column named `col` is a member of
`ids` (`isin` followed by `set_data`). -/
def filterEdge (e : EdgeC) (col : String) (ids : List Nat) :
    Except String EdgeC :=
  if col = e.startId then
    Except.ok { e with rows := e.rows.filter (fun r => decide (r.1 ∈ ids)) }
  else if col = e.endId then
    Except.ok { e with rows := e.rows.filter (fun r => decide (r.2 ∈ ids)) }
  else Except.error ("Key " ++ col ++ " not a column of the edge")

/-- Error-propagating map over a list, modelling a Python loop whose body
may raise. -/
def mapE (f : α → Except String β) : List α → Except String (List β)
  | [] => Except.ok []
  | a :: l =>
    match f a with
    | Except.error s => Except.error s
    | Except.ok b =>
      match mapE f l with
      | Except.error s => Except.error s
      | Except.ok bs => Except.ok (b :: bs)

/-- One step of the node loop of `PubNet._slice` (the edges `es` have
already been filtered): an empty node is skipped; the root node is filtered
by `root_ids` directly; otherwise the edge between this node type and the
root is looked up (a missing edge skips the node), an empty filtered edge
skips the node, and otherwise the node keeps the rows whose index id occurs
in the filtered edge's column for this node type. -/
def sliceNodeStep (root : String) (ids : List Nat)
    (es : List (String × EdgeC)) (p : String × NodeTbl) :
    Except String (String × NodeTbl) :=
  if p.2.rows = [] then Except.ok p
  else if p.1 = root then
    Except.ok (p.1, ⟨p.2.rows.filter (fun r => decide (r.1 ∈ ids))⟩)
  else
    match es.lookup (edgeKey p.1 root) with
    | none => Except.ok p
    | some e =>
      if e.rows = [] then Except.ok p
      else
        match colOf e p.1 with
        | none => Except.error ("Key " ++ p.1 ++ " not a column of the edge")
        | some vals =>
          Except.ok (p.1, ⟨p.2.rows.filter (fun r => decide (r.1 ∈ vals))⟩)

/-- Embeds the mutating core of `PubNet._slice`
(src/pubnet/network/__init__.py, lines 253-281): all edge collections are
filtered against the root column first, then every node collection is
updated from the already-filtered edges. -/
def sliceNet (net : Net) (ids : List Nat) : Except String Net :=
  match mapE (fun p =>
      match filterEdge p.2 net.root ids with
      | Except.error s => Except.error s
      | Except.ok e => Except.ok (p.1, e)) net.edgeData with
  | Except.error s => Except.error s
  | Except.ok es =>
    match mapE (sliceNodeStep net.root ids es) net.nodeData with
    | Except.error s => Except.error s
    | Except.ok ns =>
      Except.ok { net with edgeData := es, nodeData := ns }

/-- Embeds `PubNet._slice` with `mutate=False`: the container is deep-copied
and the copy is sliced, so the caller's container is untouched whether the
slice succeeds or raises.  The first component is the returned value (or
the propagated error), the second the state of `self` after the call;
deep copying shares no mutable state, which the embedding renders as the
second component being the original value. -/
def sliceMutFalse (net : Net) (ids : List Nat) : Except String Net × Net :=
  (sliceNet net ids, net)

/-- Embeds `Node.isequal`: same features with the same values, which the
row-collapsed embedding renders as equality of the row lists. -/
def nodeIsequal (a b : NodeTbl) : Bool :=
  a.rows == b.rows

/-- Embeds `NumpyEdge.isequal`: equal start ids, end ids and data. -/
def edgeIsequal (a b : EdgeC) : Bool :=
  a.startId == b.startId && (a.endId == b.endId && a.rows == b.rows)

/-- Embeds `PubNet.isequal`: equal node-name sets, equal edge-key sets, and
pairwise equal collections (a missing collection on either side makes the
comparison fail, as the Python key lookup would raise). -/
def netIsequal (a b : Net) : Bool :=
  decide (a.nodes.toFinset = b.nodes.toFinset) &&
  (decide (a.edges.toFinset = b.edges.toFinset) &&
  (a.nodes.all (fun n =>
    match a.nodeData.lookup n, b.nodeData.lookup n with
    | some x, some y => nodeIsequal x y
    | _, _ => false) &&
  a.edges.all (fun k =>
    match a.edgeData.lookup k, b.edgeData.lookup k with
    | some x, some y => edgeIsequal x y
    | _, _ => false)))

/-- Well-formedness maintained by `add_node` / `add_edge`: the key lists
mirror the data mappings and contain no duplicates. -/
structure NetWF (net : Net) : Prop where
  nodesKeys : net.nodes = net.nodeData.map Prod.fst
  edgesKeys : net.edges = net.edgeData.map Prod.fst
  nodesNodup : net.nodes.Nodup
  edgesNodup : net.edges.Nodup

lemma mapE_ok_forward {α β : Type} {f : α → Except String β} {l : List α}
    {r : List β} (h : mapE f l = Except.ok r) :
    ∀ a ∈ l, ∃ b ∈ r, f a = Except.ok b := by
  induction l generalizing r with
  | nil => intro a ha; cases ha
  | cons x xs ih =>
    intro a ha
    rw [mapE] at h
    cases hfx : f x with
    | error s => rw [hfx] at h; cases h
    | ok b =>
      rw [hfx] at h
      cases hxs : mapE f xs with
      | error s => rw [hxs] at h; cases h
      | ok bs =>
        rw [hxs] at h
        cases h
        rcases List.mem_cons.mp ha with rfl | hmem
        · exact ⟨b, List.mem_cons_self _ _, hfx⟩
        · rcases ih hxs a hmem with ⟨c, hc, hfc⟩
          exact ⟨c, List.mem_cons_of_mem _ hc, hfc⟩

lemma mapE_ok_backward {α β : Type} {f : α → Except String β} {l : List α}
    {r : List β} (h : mapE f l = Except.ok r) :
    ∀ b ∈ r, ∃ a ∈ l, f a = Except.ok b := by
  induction l generalizing r with
  | nil =>
    rw [mapE] at h
    cases h
    intro b hb
    cases hb
  | cons x xs ih =>
    intro b hb
    rw [mapE] at h
    cases hfx : f x with
    | error s => rw [hfx] at h; cases h
    | ok c =>
      rw [hfx] at h
      cases hxs : mapE f xs with
      | error s => rw [hxs] at h; cases h
      | ok bs =>
        rw [hxs] at h
        cases h
        rcases List.mem_cons.mp hb with rfl | hmem
        · exact ⟨x, List.mem_cons_self _ _, hfx⟩
        · rcases ih hxs b hmem with ⟨a, ha, hfa⟩
          exact ⟨a, List.mem_cons_of_mem _ ha, hfa⟩

lemma mapE_ok_id {α : Type} {f : α → Except String α} {l : List α}
    (h : ∀ a ∈ l, f a = Except.ok a) : mapE f l = Except.ok l := by
  induction l with
  | nil => rw [mapE]
  | cons x xs ih =>
    rw [mapE, h x (List.mem_cons_self _ _),
      ih (fun a ha => h a (List.mem_cons_of_mem _ ha))]

lemma mapE_ok_map_eq {α β γ : Type} {f : α → Except String β} {g1 : α → γ}
    {g2 : β → γ} (hg : ∀ a b, f a = Except.ok b → g2 b = g1 a) :
    ∀ {l : List α} {r : List β}, mapE f l = Except.ok r →
      r.map g2 = l.map g1 := by
  intro l
  induction l with
  | nil => intro r h; rw [mapE] at h; cases h; rfl
  | cons x xs ih =>
    intro r h
    rw [mapE] at h
    cases hfx : f x with
    | error s => rw [hfx] at h; cases h
    | ok b =>
      rw [hfx] at h
      cases hxs : mapE f xs with
      | error s => rw [hxs] at h; cases h
      | ok bs =>
        rw [hxs] at h
        cases h
        simp only [List.map_cons, hg x b hfx, ih hxs]

lemma lookup_of_mem_nodup {β : Type} {l : List (String × β)} {k : String}
    {v : β} (hnd : (l.map Prod.fst).Nodup) (hmem : (k, v) ∈ l) :
    l.lookup k = some v := by
  induction l with
  | nil => cases hmem
  | cons x xs ih =>
    obtain ⟨a, b⟩ := x
    rw [List.map_cons, List.nodup_cons] at hnd
    rcases List.mem_cons.mp hmem with heq | hmem2
    · cases heq
      simp [List.lookup]
    · have hka : k ≠ a := by
        intro hk
        subst hk
        exact hnd.1 (List.mem_map.mpr ⟨(k, v), hmem2, rfl⟩)
    

      have hbeq : (k == a) = false := beq_eq_false_iff_ne.mpr hka
      simp only [List.lookup, hbeq]
      exact ih hnd.2 hmem2

lemma lookup_isSome_of_mem_keys {β : Type} {l : List (String × β)}
    {k : String} (hmem : k ∈ l.map Prod.fst) : ∃ v, l.lookup k = some v := by
  induction l with
  | nil => cases hmem
  | cons x xs ih =>
    obtain ⟨a, b⟩ := x
    rcases List.mem_cons.mp hmem with heq | hmem2
    · subst heq
      exact ⟨b, by simp [List.lookup]⟩
    · by_cases hka : k = a
      · subst hka
        exact ⟨b, by simp [List.lookup]⟩
      · rcases ih hmem2 with ⟨v, hv⟩
        have hbeq : (k == a) = false := beq_eq_false_iff_ne.mpr hka
        exact ⟨v, by simp only [List.lookup, hbeq]; exact hv⟩

lemma filterEdge_ok_cases {e e' : EdgeC} {col : String} {ids : List Nat}
    (h : filterEdge e col ids = Except.ok e') :
    e'.startId = e.startId ∧ e'.endId = e.endId ∧
      ((col = e.startId ∧
        e'.rows = e.rows.filter (fun r => decide (r.1 ∈ ids))) ∨
       (col ≠ e.startId ∧ col = e.endId ∧
        e'.rows = e.rows.filter (fun r => decide (r.2 ∈ ids)))) := by
  unfold filterEdge at h
  by_cases h1 : col = e.startId
  · rw [if_pos h1] at h
    cases h
    exact ⟨rfl, rfl, Or.inl ⟨h1, rfl⟩⟩
  · rw [if_neg h1] at h
    by_cases h2 : col = e.endId
    · rw [if_pos h2] at h
      cases h
      exact ⟨rfl, rfl, Or.inr ⟨h1, h2, rfl⟩⟩
    · rw [if_neg h2] at h
      cases h

lemma filterEdge_col_sub {e e' : EdgeC} {col : String} {ids vals : List Nat}
    (h : filterEdge e col ids = Except.ok e')
    (hc : colOf e' col = some vals) : ∀ v ∈ vals, v ∈ ids := by
  obtain ⟨hs, he, hcase⟩ := filterEdge_ok_cases h
  rcases hcase with ⟨hcol, hrows⟩ | ⟨hne, hcol, hrows⟩
  · have hcol2 : col = e'.startId := hs ▸ hcol
    unfold colOf at hc
    rw [if_pos hcol2] at hc
    cases hc
    intro v hv
    rcases List.mem_map.mp hv with ⟨r, hr, rfl⟩
    rw [hrows, List.mem_filter] at hr
    exact of_decide_eq_true hr.2
  · have hcol1 : col ≠ e'.startId := hs ▸ hne
    have hcol2 : col = e'.endId := he ▸ hcol
    unfold colOf at hc
    rw [if_neg (fun hx => hcol1 hx), if_pos hcol2] at hc
    cases hc
    intro v hv
    rcases List.mem_map.mp hv with ⟨r, hr, rfl⟩
    rw [hrows, List.mem_filter] at hr
    exact of_decide_eq_true hr.2

lemma filterEdge_idem {e e' : EdgeC} {col : String} {ids S : List Nat}
    (h : filterEdge e col ids = Except.ok e') (hsub : ∀ x ∈ ids, x ∈ S) :
    filterEdge e' col S = Except.ok e' := by
  obtain ⟨hs, he, hcase⟩ := filterEdge_ok_cases h
  unfold filterEdge
  rcases hcase with ⟨hcol, hrows⟩ | ⟨hne, hcol, hrows⟩
  · have hcol2 : col = e'.startId := hs ▸ hcol
    have hself : e'.rows.filter (fun r => decide (r.1 ∈ S)) = e'.rows := by
      apply List.filter_eq_self.mpr
      intro r hr
      rw [hrows, List.mem_filter] at hr
      exact decide_eq_true (hsub _ (of_decide_eq_true hr.2))
    rw [if_pos hcol2, hself]
  · have hcol1 : col ≠ e'.startId := hs ▸ hne
    have hcol2 : col = e'.endId := he ▸ hcol
    have hself : e'.rows.filter (fun r => decide (r.2 ∈ S)) = e'.rows := by
      apply List.filter_eq_self.mpr
      intro r hr
      rw [hrows, List.mem_filter] at hr
      exact decide_eq_true (hsub _ (of_decide_eq_true hr.2))
    rw [if_neg (fun hx => hcol1 hx), if_pos hcol2, hself]

lemma sliceNodeStep_spec {root : String} {ids : List Nat}
    {es : List (String × EdgeC)} {p q : String × NodeTbl}
    (h : sliceNodeStep root ids es p = Except.ok q) :
    q.1 = p.1 ∧
    ((p.2.rows = [] ∧ q = p) ∨
     (p.2.rows ≠ [] ∧ p.1 = root ∧
       q.2 = ⟨p.2.rows.filter (fun r => decide (r.1 ∈ ids))⟩) ∨
     (p.2.rows ≠ [] ∧ p.1 ≠ root ∧
       es.lookup (edgeKey p.1 root) = none ∧ q = p) ∨
     (∃ e, p.2.rows ≠ [] ∧ p.1 ≠ root ∧
       es.lookup (edgeKey p.1 root) = some e ∧ e.rows = [] ∧ q = p) ∨
     (∃ e vals, p.2.rows ≠ [] ∧ p.1 ≠ root ∧
       es.lookup (edgeKey p.1 root) = some e ∧ e.rows ≠ [] ∧
       colOf e p.1 = some vals ∧
       q.2 = ⟨p.2.rows.filter (fun r => decide (r.1 ∈ vals))⟩)) := by
  unfold sliceNodeStep at h
  by_cases h1 : p.2.rows = []
  · rw [if_pos h1] at h
    cases h
    exact ⟨rfl, Or.inl ⟨h1, rfl⟩⟩
  · rw [if_neg h1] at h
    by_cases h2 : p.1 = root
    · rw [if_pos h2] at h
      cases h
      exact ⟨rfl, Or.inr (Or.inl ⟨h1, h2, rfl⟩)⟩
    · rw [if_neg h2] at h
      split at h
      next hl =>
        cases h
        exact ⟨rfl, Or.inr (Or.inr (Or.inl ⟨h1, h2, hl, rfl⟩))⟩
      next e hl =>
        by_cases h3 : e.rows = []
        · rw [if_pos h3] at h
          cases h
          exact ⟨rfl, Or.inr (Or.inr (Or.inr (Or.inl ⟨e, h1, h2, hl, h3, rfl⟩)))⟩
        · rw [if_neg h3] at h
          split at h
          next hc => cases h
          next vals hc =>
            cases h
            exact ⟨rfl, Or.inr (Or.inr (Or.inr (Or.inr
              ⟨e, vals, h1, h2, hl, h3, hc, rfl⟩)))⟩

lemma nodeTbl_eta (t : NodeTbl) : (⟨t.rows⟩ : NodeTbl) = t := rfl

lemma sliceNodeStep_idem {root : String} {ids S : List Nat}
    {es : List (String × EdgeC)} {p q : String × NodeTbl}
    (h : sliceNodeStep root ids es p = Except.ok q)
    (hsub : ∀ x ∈ ids, x ∈ S) :
    sliceNodeStep root S es q = Except.ok q := by
  obtain ⟨hkey, hcase⟩ := sliceNodeStep_spec h
  rcases hcase with ⟨hrows, rfl⟩ | ⟨hne, hroot, hq2⟩ |
    ⟨hne, hnroot, hlk, rfl⟩ | ⟨e, hne, hnroot, hlk, herows, rfl⟩ |
    ⟨e, vals, hne, hnroot, hlk, herows, hcol, hq2⟩
  · unfold sliceNodeStep
    rw [if_pos hrows]
  · by_cases hqe : q.2.rows = []
    · unfold sliceNodeStep
      rw [if_pos hqe]
    · have hq1 : q.1 = root := hkey.trans hroot
      have hfix : q.2.rows.filter (fun r => decide (r.1 ∈ S)) = q.2.rows := by
        apply List.filter_eq_self.mpr
        intro r hr
        rw [hq2] at hr
        rcases List.mem_filter.mp hr with ⟨-, hr2⟩
        exact decide_eq_true (hsub _ (of_decide_eq_true hr2))
      unfold sliceNodeStep
      rw [if_neg hqe, if_pos hq1, hfix]
  · unfold sliceNodeStep
    rw [if_neg hne, if_neg hnroot]
    simp only [hlk]
  · unfold sliceNodeStep
    rw [if_neg hne, if_neg hnroot]
    simp only [hlk]
    rw [if_pos herows]
  · by_cases hqe : q.2.rows = []
    · unfold sliceNodeStep
      rw [if_pos hqe]
    · have hq1 : q.1 ≠ root := hkey ▸ hnroot
      have hfix : q.2.rows.filter (fun r => decide (r.1 ∈ vals)) = q.2.rows := by
        apply List.filter_eq_self.mpr
        intro r hr
        rw [hq2] at hr
        exact (List.mem_filter.mp hr).2
      have hlk2 : es.lookup (edgeKey q.1 root) = some e := by
        rw [hkey]; exact hlk
      have hcol2 : colOf e q.1 = some vals := by
        rw [hkey]; exact hcol
      unfold sliceNodeStep
      rw [if_neg hqe, if_neg hq1]
      simp only [hlk2]
      rw [if_neg herows]
      simp only [hcol2]
      rw [hfix]

lemma edgeStep_ok {root : String} {ids : List Nat} {a b : String × EdgeC}
    (h : (match filterEdge a.2 root ids with
      | Except.error s => Except.error s
      | Except.ok e => Except.ok (a.1, e)) = Except.ok b) :
    b.1 = a.1 ∧ filterEdge a.2 root ids = Except.ok b.2 := by
  split at h
  next s heq => cases h
  next e heq =>
    cases h
    exact ⟨rfl, heq⟩

lemma sliceNet_ok_elim {net : Net} {ids : List Nat} {m : Net}
    (h : sliceNet net ids = Except.ok m) :
    ∃ es ns,
      mapE (fun p => match filterEdge p.2 net.root ids with
        | Except.error s => Except.error s
        | Except.ok e => Except.ok (p.1, e)) net.edgeData = Except.ok es ∧
      mapE (sliceNodeStep net.root ids es) net.nodeData = Except.ok ns ∧
      m = { net with edgeData := es, nodeData := ns } := by
  unfold sliceNet at h
  split at h
  next s hes => cases h
  next es hes =>
    split at h
    next s hns => cases h
    next ns hns =>
      cases h
      exact ⟨es, ns, hes, hns, rfl⟩

lemma netIsequal_refl {a : Net}
    (hN : ∀ n ∈ a.nodes, ∃ v, a.nodeData.lookup n = some v)
    (hE : ∀ k ∈ a.edges, ∃ v, a.edgeData.lookup k = some v) :
    netIsequal a a = true := by
  unfold netIsequal
  rw [Bool.and_eq_true, Bool.and_eq_true, Bool.and_eq_true]
  refine ⟨by simp, by simp, ?_, ?_⟩
  · rw [List.all_eq_true]
    intro n hn
    obtain ⟨v, hv⟩ := hN n hn
    simp only [hv]
    simp [nodeIsequal]
  · rw [List.all_eq_true]
    intro k hk
    obtain ⟨v, hv⟩ := hE k hk
    simp only [hv]
    simp [edgeIsequal]


/-- C4: slicing is idempotent.  If slicing `net` by `ids` succeeds with
result `m`, then slicing `m` again by `ids` or by any superset `S` returns
`m` itself, and `m` compares equal to itself under the container's
`isequal`. -/
theorem slice_idempotent (net m : Net) (ids S : List Nat)
    (h : sliceNet net ids = Except.ok m) (hwf : NetWF net)
    (hsub : ∀ x ∈ ids, x ∈ S) :
    sliceNet m S = Except.ok m ∧ netIsequal m m = true := by
  obtain ⟨es, ns, hes, hns, rfl⟩ := sliceNet_ok_elim h
  constructor
  · have hes2 : mapE (fun p => match filterEdge p.2 net.root S with
        | Except.error s => Except.error s
        | Except.ok e => Except.ok (p.1, e)) es = Except.ok es := by
      apply mapE_ok_id
      intro p hp
      rcases mapE_ok_backward hes p hp with ⟨a, ha, hfa⟩
      obtain ⟨hkey, hfe⟩ := edgeStep_ok hfa
      have hidem := filterEdge_idem hfe hsub
      simp only [hidem]
    have hns2 : mapE (sliceNodeStep net.root S es) ns = Except.ok ns := by
      apply mapE_ok_id
      intro q hq
      rcases mapE_ok_backward hns q hq with ⟨a, ha, hfa⟩
      exact sliceNodeStep_idem hfa hsub
    unfold sliceNet
    dsimp only
    simp only [hes2, hns2]
  · have hkeysN : ns.map Prod.fst = net.nodeData.map Prod.fst :=
      mapE_ok_map_eq (fun a b hb => (sliceNodeStep_spec hb).1) hns
    have hkeysE : es.map Prod.fst = net.edgeData.map Prod.fst :=
      mapE_ok_map_eq (fun a b hb => (edgeStep_ok hb).1) hes
    apply netIsequal_refl
    · intro n hn
      have hn2 : n ∈ ns.map Prod.fst := by
        rw [hkeysN, ← hwf.nodesKeys]
        exact hn
      exact lookup_isSome_of_mem_keys hn2
    · intro k hk
      have hk2 : k ∈ es.map Prod.fst := by
        rw [hkeysE, ← hwf.edgesKeys]
        exact hk
      exact lookup_isSome_of_mem_keys hk2

/-- C4 witness: slicing a one-publication, one-author network by the id set
containing publication 1 and re-slicing by a superset is a no-op. -/
theorem slice_idempotent_witness :
    sliceNet
        { root := "Publication", nodes := ["Publication", "Author"],
          nodeData := [("Publication", ⟨[(1, 0)]⟩), ("Author", ⟨[(1, 0)]⟩)],
          edges := ["Author-Publication"],
          edgeData :=
            [("Author-Publication", ⟨"Publication", "Author", [(1, 1)]⟩)] }
        [1, 2] = Except.ok
        { root := "Publication", nodes := ["Publication", "Author"],
          nodeData := [("Publication", ⟨[(1, 0)]⟩), ("Author", ⟨[(1, 0)]⟩)],
          edges := ["Author-Publication"],
          edgeData :=
            [("Author-Publication", ⟨"Publication", "Author", [(1, 1)]⟩)] } ∧
      netIsequal
        { root := "Publication", nodes := ["Publication", "Author"],
          nodeData := [("Publication", ⟨[(1, 0)]⟩), ("Author", ⟨[(1, 0)]⟩)],
          edges := ["Author-Publication"],
          edgeData :=
            [("Author-Publication", ⟨"Publication", "Author", [(1, 1)]⟩)] }
        { root := "Publication", nodes := ["Publication", "Author"],
          nodeData := [("Publication", ⟨[(1, 0)]⟩), ("Author", ⟨[(1, 0)]⟩)],
          edges := ["Author-Publication"],
          edgeData :=
            [("Author-Publication", ⟨"Publication", "Author", [(1, 1)]⟩)] }
        = true :=
  slice_idempotent
    { root := "Publication", nodes := ["Publication", "Author"],
      nodeData := [("Publication", ⟨[(1, 0)]⟩), ("Author", ⟨[(1, 0)]⟩)],
      edges := ["Author-Publication"],
      edgeData :=
        [("Author-Publication", ⟨"Publication", "Author", [(1, 1)]⟩)] }
    { root := "Publication", nodes := ["Publication", "Author"],
      nodeData := [("Publication", ⟨[(1, 0)]⟩), ("Author", ⟨[(1, 0)]⟩)],
      edges := ["Author-Publication"],
      edgeData :=
        [("Author-Publication", ⟨"Publication", "Author", [(1, 1)]⟩)] }
    [1] [1, 2] (by rfl) ⟨rfl, rfl, by decide, by decide⟩ (by decide)

/-- C3 (amended): after a successful slice, every edge collection's
root-type column only holds members of `ids`; every non-root node
collection either is unchanged from the original container (which happens
when no edge links it to the root, when the filtered edge collection is
empty, or when the node was already empty) or its id column is a subset of
the surviving edge collection's column for that node type. -/
theorem slice_consistency_amended (net m : Net) (ids : List Nat)
    (h : sliceNet net ids = Except.ok m) (hwf : NetWF net) :
    (∀ p ∈ m.edgeData, ∀ vals, colOf p.2 net.root = some vals →
      ∀ v ∈ vals, v ∈ ids) ∧
    (∀ p ∈ m.nodeData, p.1 ≠ net.root →
      net.nodeData.lookup p.1 = some p.2 ∨
      ∃ e vals, m.edgeData.lookup (edgeKey p.1 net.root) = some e ∧
        colOf e p.1 = some vals ∧ ∀ v ∈ p.2.rows.map Prod.fst, v ∈ vals) := by
  obtain ⟨es, ns, hes, hns, rfl⟩ := sliceNet_ok_elim h
  have hnodupN : (net.nodeData.map Prod.fst).Nodup := by
    rw [← hwf.nodesKeys]
    exact hwf.nodesNodup
  constructor
  · intro p hp vals hc v hv
    rcases mapE_ok_backward hes p hp with ⟨a, ha, hfa⟩
    obtain ⟨hkey, hfe⟩ := edgeStep_ok hfa
    exact filterEdge_col_sub hfe hc v hv
  · intro p hp hne
    rcases mapE_ok_backward hns p hp with ⟨a, ha, hfa⟩
    obtain ⟨hkey, hcase⟩ := sliceNodeStep_spec hfa
    rcases hcase with ⟨hrows, heq⟩ | ⟨hrne, hroot, hq2⟩ |
      ⟨hrne, hnroot, hlk, heq⟩ | ⟨e, hrne, hnroot, hlk, herows, heq⟩ |
      ⟨e, vals, hrne, hnroot, hlk, herows, hcol, hq2⟩
    · left
      subst heq
      obtain ⟨k, nd⟩ := p
      exact lookup_of_mem_nodup hnodupN ha
    · exact absurd (hkey.trans hroot) hne
    · left
      subst heq
      obtain ⟨k, nd⟩ := p
      exact lookup_of_mem_nodup hnodupN ha
    · left
      subst heq
      obtain ⟨k, nd⟩ := p
      exact lookup_of_mem_nodup hnodupN ha
    · right
      refine ⟨e, vals, ?_, ?_, ?_⟩
      · rw [hkey]
        exact hlk
      · rw [hkey]
        exact hcol
      · intro v hv
        rcases List.mem_map.mp hv with ⟨r, hr, rfl⟩
        rw [hq2] at hr
        exact of_decide_eq_true (List.mem_filter.mp hr).2

/-- Concrete container for the slice counterexamples: one publication with
id 1, one author with id 1, and one Author-Publication edge (1, 1). -/
def cexNet : Net :=
  { root := "Publication", nodes := ["Publication", "Author"],
    nodeData := [("Publication", ⟨[(1, 0)]⟩), ("Author", ⟨[(1, 0)]⟩)],
    edges := ["Author-Publication"],
    edgeData :=
      [("Author-Publication", ⟨"Publication", "Author", [(1, 1)]⟩)] }

/-- The value of `sliceNet cexNet [2]`: the edge loses its only row and the
publication node its only row, but the author node is left untouched
because the filtered edge is empty. -/
def cexSliced : Net :=
  { root := "Publication", nodes := ["Publication", "Author"],
    nodeData := [("Publication", ⟨[]⟩), ("Author", ⟨[(1, 0)]⟩)],
    edges := ["Author-Publication"],
    edgeData := [("Author-Publication", ⟨"Publication", "Author", []⟩)] }

/-- C3 counterexample: slicing `cexNet` by the id set containing only 2
leaves the Author node with id column [1] while the surviving
Author-Publication edge's Author column is empty, so the Author id column
is not a subset of that column even though an edge to the root exists. -/
theorem slice_consistency_counterexample :
    sliceNet cexNet [2] = Except.ok cexSliced ∧
    cexSliced.nodeData.lookup "Author" = some ⟨[(1, 0)]⟩ ∧
    cexSliced.edgeData.lookup (edgeKey "Author" cexNet.root) =
      some ⟨"Publication", "Author", []⟩ ∧
    colOf ⟨"Publication", "Author", []⟩ "Author" = some [] ∧
    ¬(∀ v ∈ ([(1, 0)] : List (Nat × Nat)).map Prod.fst,
      v ∈ ([] : List Nat)) :=
  ⟨rfl, rfl, rfl, rfl, by decide⟩

/-- C5 (amended): during a successful slice, a non-empty non-root node
collection whose type has an edge collection to the root is replaced by the
subset of its rows whose id occurs in the filtered edge's column for that
type when that filtered edge still has rows; when the filtered edge
collection has zero surviving rows the node collection is left unchanged
(not emptied). -/
theorem slice_node_replacement_amended (net m : Net) (ids : List Nat)
    (k : String) (nd : NodeTbl) (e : EdgeC) (vals : List Nat)
    (h : sliceNet net ids = Except.ok m)
    (hmem : (k, nd) ∈ net.nodeData) (hk : k ≠ net.root)
    (hnd : nd.rows ≠ [])
    (he : m.edgeData.lookup (edgeKey k net.root) = some e)
    (hcol : colOf e k = some vals) :
    (e.rows = [] → (k, nd) ∈ m.nodeData) ∧
    (e.rows ≠ [] →
      (k, ⟨nd.rows.filter (fun r => decide (r.1 ∈ vals))⟩) ∈ m.nodeData) := by
  obtain ⟨es, ns, hes, hns, rfl⟩ := sliceNet_ok_elim h
  rcases mapE_ok_forward hns (k, nd) hmem with ⟨b, hb, hfb⟩
  have he2 : es.lookup (edgeKey k net.root) = some e := he
  unfold sliceNodeStep at hfb
  rw [if_neg hnd, if_neg hk] at hfb
  simp only [he2] at hfb
  constructor
  · intro hemp
    rw [if_pos hemp] at hfb
    cases hfb
    exact hb
  · intro hnemp
    rw [if_neg hnemp] at hfb
    simp only [hcol] at hfb
    cases hfb
    exact hb

/-- C5 counterexample: slicing `cexNet` by the id set containing only 2
empties the Author-Publication edge, yet the Author node keeps its row
(1, 0) instead of becoming the empty subset of rows whose id occurs in the
(empty) surviving edge column. -/
theorem slice_empty_edge_keeps_node_counterexample :
    sliceNet cexNet [2] = Except.ok cexSliced ∧
    cexSliced.edgeData.lookup (edgeKey "Author" cexNet.root) =
      some ⟨"Publication", "Author", []⟩ ∧
    cexSliced.nodeData.lookup "Author" = some ⟨[(1, 0)]⟩ ∧
    some (⟨[(1, 0)]⟩ : NodeTbl) ≠ some (⟨[]⟩ : NodeTbl) :=
  ⟨rfl, rfl, rfl, by decide⟩

/-- C7: slicing with `mutate=False` leaves the original container - all of
its node collections and edge collections - unchanged, and returns the
slice of the original computed independently on the deep copy. -/
theorem slice_mutate_false_frame (net : Net) (ids : List Nat) :
    (sliceMutFalse net ids).2 = net ∧
    (∀ p ∈ net.nodeData, p ∈ (sliceMutFalse net ids).2.nodeData) ∧
    (∀ p ∈ net.edgeData, p ∈ (sliceMutFalse net ids).2.edgeData) ∧
    (∀ m, sliceNet net ids = Except.ok m →
      (sliceMutFalse net ids).1 = Except.ok m) :=
  ⟨rfl, fun _ hp => hp, fun _ hp => hp, fun _ hm => hm⟩

/-- C7 witness: the frame theorem applied to the concrete container
`cexNet` and the id set [2]. -/
theorem slice_mutate_false_frame_witness :
    (sliceMutFalse cexNet [2]).2 = cexNet ∧
    (("Publication", (⟨[(1, 0)]⟩ : NodeTbl)) ∈
      (sliceMutFalse cexNet [2]).2.nodeData) ∧
    (sliceMutFalse cexNet [2]).1 = Except.ok cexSliced :=
  ⟨(slice_mutate_false_frame cexNet [2]).1,
    (slice_mutate_false_frame cexNet [2]).2.1 _ (by decide),
    (slice_mutate_false_frame cexNet [2]).2.2.2 cexSliced rfl⟩

/-- C3 witness: the amended consistency theorem applied to the concrete
container `cexNet` sliced by the id set containing only 2. -/
theorem slice_consistency_amended_witness :
    (∀ p ∈ cexSliced.edgeData, ∀ vals, colOf p.2 cexNet.root = some vals →
      ∀ v ∈ vals, v ∈ [2]) ∧
    (∀ p ∈ cexSliced.nodeData, p.1 ≠ cexNet.root →
      cexNet.nodeData.lookup p.1 = some p.2 ∨
      ∃ e vals, cexSliced.edgeData.lookup (edgeKey p.1 cexNet.root) =
          some e ∧
        colOf e p.1 = some vals ∧ ∀ v ∈ p.2.rows.map Prod.fst, v ∈ vals) :=
  slice_consistency_amended cexNet cexSliced [2] rfl
    ⟨rfl, rfl, by decide, by decide⟩

/-- C5 witness: the amended replacement theorem applied to `cexNet` sliced
by the id set containing 1, where the filtered Author-Publication edge
keeps its row, so the Author node is the filtered subset. -/
theorem slice_node_replacement_amended_witness :
    ((⟨"Publication", "Author", [(1, 1)]⟩ : EdgeC).rows = [] →
      ("Author", (⟨[(1, 0)]⟩ : NodeTbl)) ∈ cexNet.nodeData) ∧
    ((⟨"Publication", "Author", [(1, 1)]⟩ : EdgeC).rows ≠ [] →
      ("Author", (⟨List.filter (fun r => decide (r.1 ∈ [1])) [(1, 0)]⟩ :
        NodeTbl)) ∈ cexNet.nodeData) :=
  slice_node_replacement_amended cexNet cexNet [1] "Author" ⟨[(1, 0)]⟩
    ⟨"Publication", "Author", [(1, 1)]⟩ [1] rfl (by decide) (by decide)
    (by decide) rfl rfl

/-! ## `PubNet.update`, `PubNet.select_root`, `Edge.similarity` -/

/-- Embeds Python `dict.update`: keys already present keep their position
but take the other mapping's value; new keys are appended in the other
mapping's order. -/
def dictUpdate {β : Type} (a b : List (String × β)) : List (String × β) :=
  a.map (fun p =>
    match b.lookup p.1 with
    | some v => (p.1, v)
    | none => p) ++
  b.filter (fun p => (a.lookup p.1).isNone)

/-- Embeds `PubNet.update` (src/pubnet/network/__init__.py, lines 512-523):
both data dicts are updated with the other container's entries, the node
key list is rebuilt as `list(set(self.nodes + other.nodes))` (embedded as
order-deterministic deduplication), but the edge key list is extended with
`self.edges += list(set(self.edges + other.edges))`, appending the
deduplicated union to the existing list. -/
def updateNet (a b : Net) : Net :=
  { a with
    nodeData := dictUpdate a.nodeData b.nodeData,
    edgeData := dictUpdate a.edgeData b.edgeData,
    nodes := (a.nodes ++ b.nodes).dedup,
    edges := a.edges ++ (a.edges ++ b.edges).dedup }

/-- First container for the `update` scenario of the spec: it defines the
edge key Chemical-Publication with data row (1, 1). -/
def updNetA : Net :=
  { root := "Publication", nodes := ["Publication", "Chemical"],
    nodeData := [("Publication", ⟨[(1, 0)]⟩), ("Chemical", ⟨[(1, 0)]⟩)],
    edges := ["Chemical-Publication"],
    edgeData :=
      [("Chemical-Publication", ⟨"Chemical", "Publication", [(1, 1)]⟩)] }

/-- Second container for the `update` scenario: it defines the same edge
key Chemical-Publication but with data row (2, 2). -/
def updNetB : Net :=
  { root := "Publication", nodes := ["Publication", "Chemical"],
    nodeData := [("Publication", ⟨[(2, 0)]⟩), ("Chemical", ⟨[(2, 0)]⟩)],
    edges := ["Chemical-Publication"],
    edgeData :=
      [("Chemical-Publication", ⟨"Chemical", "Publication", [(2, 2)]⟩)] }

/-- C6: evaluating `update` at the failing input.  The other container's
Chemical-Publication collection does win (last-writer-wins holds, and the
node key list is the duplicate-free union), but the edge key list comes out
as ["Chemical-Publication", "Chemical-Publication"]: the source's
`self.edges += list(set(self.edges + other.edges))` appends the union to
the existing list, so the edge key list contains duplicates, unlike the
node key list built with `self.nodes = list(set(...))`. -/
theorem update_edge_list_duplicated :
    (updateNet updNetA updNetB).edges =
      ["Chemical-Publication", "Chemical-Publication"] ∧
    ¬(updateNet updNetA updNetB).edges.Nodup ∧
    (updateNet updNetA updNetB).edgeData.lookup "Chemical-Publication" =
      some ⟨"Chemical", "Publication", [(2, 2)]⟩ ∧
    (updateNet updNetA updNetB).nodeData.lookup "Chemical" =
      some ⟨[(2, 0)]⟩ ∧
    (updateNet updNetA updNetB).nodes = ["Publication", "Chemical"] ∧
    (updateNet updNetA updNetB).nodes.Nodup := by
  refine ⟨rfl, by decide, rfl, rfl, rfl, by decide⟩

/-- Embeds `PubNet.select_root` (src/pubnet/network/__init__.py, lines
101-110): the root attribute is assigned when the requested name is a
member of the node list, but the method then falls through - there is no
early return - and unconditionally raises a `KeyError` naming the
requested root.  The first component is the state of `self` after the
call, the second the key carried by the raised `KeyError`. -/
def selectRoot (net : Net) (newRoot : String) : Net × Option String :=
  ( if newRoot ∈ net.nodes then { net with root := newRoot } else net,
    some newRoot )

/-- C10: `select_root` always raises a `KeyError` - even when the requested
name is in the container's node list, in which case the root attribute has
already been switched to the new name when the error is raised; when the
name is not a node type, the container is left unchanged. -/
theorem select_root_always_raises (net : Net) (name : String) :
    (selectRoot net name).2 = some name ∧
    (name ∈ net.nodes → (selectRoot net name).1.root = name) ∧
    (name ∉ net.nodes → (selectRoot net name).1 = net) := by
  refine ⟨rfl, ?_, ?_⟩
  · intro hmem
    unfold selectRoot
    rw [if_pos hmem]
  · intro hmem
    unfold selectRoot
    rw [if_neg hmem]

/-- C10 witness: selecting the member node type Author as root on the
concrete container raises while still switching the root. -/
theorem select_root_always_raises_witness :
    (selectRoot cexNet "Author").2 = some "Author" ∧
    (selectRoot cexNet "Author").1.root = "Author" ∧
    (selectRoot cexNet "NotAType").1 = cexNet :=
  ⟨(select_root_always_raises cexNet "Author").1,
    (select_root_always_raises cexNet "Author").2.1 (by decide),
    (select_root_always_raises cexNet "NotAType").2.2 (by decide)⟩

/-- Errors raised by `Edge.similarity`: looking up an unknown method name
in the `all_methods` dict raises a `KeyError` carrying the requested key,
while a known method whose implementation raises `AbstractMethodError` is
converted to a `NotImplementedError` whose message names the requested
method and the backend class. -/
inductive SimError where
  | keyError (key : String)
  | notImplemented (method : String) (backend : String)
deriving DecidableEq

/-- The keys of the `all_methods` dict of `Edge.similarity`. -/
def methodTable : List String := ["shortest_path", "pagerank"]

/-- Embeds `Edge.similarity` (src/pubnet/network/_edge/_base.py, lines
206-237): `all_methods[method](target_publications)` raises a plain
`KeyError` for a method name outside the dict - the surrounding
`try/except` only catches `AbstractMethodError` - and converts an
`AbstractMethodError` from an unimplemented known method into a
`NotImplementedError` naming the method and the backend class name.  The
computed result itself is irrelevant to the error contract and is
embedded as `Unit`. -/
def similarityCall (backend : String) (implements : String → Bool)
    (method : String) : Except SimError Unit :=
  if method ∈ methodTable then
    if implements method then Except.ok ()
    else Except.error (SimError.notImplemented method backend)
  else Except.error (SimError.keyError method)

/-- Which known methods the numpy backend implements: `NumpyEdge` defines
`_shortest_path` but inherits the abstract `_pagerank`. -/
def numpyImplements : String → Bool := fun m => m == "shortest_path"

/-- C9 counterexample: requesting the unsupported method "foo" on the
numpy backend raises a plain `KeyError` carrying only the method name -
not a not-implemented error naming the method and the backend - because
the dict lookup `all_methods[method]` fails before the `except
AbstractMethodError` clause can intervene. -/
theorem similarity_unknown_method_keyerror :
    similarityCall "NumpyEdge" numpyImplements "foo" =
      Except.error (SimError.keyError "foo") := rfl

/-- C9 (amended): for every method name that is listed in the method table
but not implemented by the backend, `similarity` raises a
`NotImplementedError` naming both the requested method and the backend;
method names outside the table instead raise a `KeyError` naming only the
method. -/
theorem similarity_table_not_implemented (backend : String)
    (implements : String → Bool) (method : String)
    (hmem : method ∈ methodTable) (hni : implements method = false) :
    similarityCall backend implements method =
      Except.error (SimError.notImplemented method backend) := by
  unfold similarityCall
  rw [if_pos hmem, hni]
  rfl

/-- C9 witness: the amended theorem applied to the numpy backend and the
known but unimplemented method "pagerank". -/
theorem similarity_table_not_implemented_witness :
    similarityCall "NumpyEdge" numpyImplements "pagerank" =
      Except.error (SimError.notImplemented "pagerank" "NumpyEdge") :=
  similarity_table_not_implemented "NumpyEdge" numpyImplements "pagerank"
    (by decide) (by decide)

/-! ## `PubNet.ids_where` and `PubNet.ids_containing`

The node table is a list of rows `(index id, feature value)`; the edge
between the root and the searched node type is a list of rows
`(root value, node value)` (which of its two stored columns is which is
resolved by name in the source, so the pairs are oriented up front). -/

/-- Embeds `PubNet.ids_where` (src/pubnet/network/__init__.py, lines
296-332): select the node rows satisfying the predicate, take their index
ids, keep the edge rows whose node column is one of those ids, and return
the root column of those rows. -/
def ids_where (tbl : List (Nat × Nat)) (pred : Nat × Nat → Bool)
    (edge : List (Nat × Nat)) : List Nat :=
  (edge.filter
    (fun r => decide (r.2 ∈ (tbl.filter pred).map Prod.fst))).map Prod.fst

/-- One extra step of `PubNet.ids_containing`: collect the node ids on
edge rows whose root id is in the current set, then rerun `ids_where` with
membership in that node-id set as the predicate. -/
def stepIds (tbl edge : List (Nat × Nat)) (rids : List Nat) : List Nat :=
  ids_where tbl
    (fun row => decide (row.1 ∈
      (edge.filter (fun r => decide (r.1 ∈ rids))).map Prod.snd))
    edge

/-- The `while steps > 1` loop of `ids_containing`, by remaining steps. -/
def containing_loop (tbl edge : List (Nat × Nat)) :
    Nat → List Nat → List Nat
  | 0, rids => rids
  | Nat.succ k, rids => containing_loop tbl edge k (stepIds tbl edge rids)

/-- Embeds `PubNet.ids_containing` (src/pubnet/network/__init__.py, lines
334-388) for a scalar feature value: the initial root ids come from the
feature-equality predicate, then `steps - 1` expansion iterations run. -/
def ids_containing (tbl edge : List (Nat × Nat)) (value : Nat)
    (steps : Nat) : List Nat :=
  containing_loop tbl edge (steps - 1)
    (ids_where tbl (fun row => row.2 == value) edge)

lemma mem_ids_where {tbl edge : List (Nat × Nat)}
    {pred : Nat × Nat → Bool} {x : Nat} :
    x ∈ ids_where tbl pred edge ↔
      ∃ r ∈ edge, r.1 = x ∧ r.2 ∈ (tbl.filter pred).map Prod.fst := by
  unfold ids_where
  simp only [List.mem_map, List.mem_filter, decide_eq_true_eq]
  constructor
  · rintro ⟨r, ⟨hr, hr2⟩, rfl⟩
    exact ⟨r, hr, rfl, hr2⟩
  · rintro ⟨r, hr, rfl, hr2⟩
    exact ⟨r, ⟨hr, hr2⟩, rfl⟩

lemma ids_where_witness {tbl edge : List (Nat × Nat)}
    {pred : Nat × Nat → Bool} {x : Nat}
    (h : x ∈ ids_where tbl pred edge) :
    ∃ r ∈ edge, r.1 = x ∧ r.2 ∈ tbl.map Prod.fst := by
  rcases mem_ids_where.mp h with ⟨r, hr, hrx, hr2⟩
  refine ⟨r, hr, hrx, ?_⟩
  rcases List.mem_map.mp hr2 with ⟨t, ht, htx⟩
  exact List.mem_map.mpr ⟨t, (List.mem_filter.mp ht).1, htx⟩

lemma subset_stepIds {tbl edge : List (Nat × Nat)} {S : List Nat}
    (hW : ∀ x ∈ S, ∃ r ∈ edge, r.1 = x ∧ r.2 ∈ tbl.map Prod.fst) :
    ∀ x ∈ S, x ∈ stepIds tbl edge S := by
  intro x hx
  rcases hW x hx with ⟨r, hr, hrx, hr2⟩
  rcases List.mem_map.mp hr2 with ⟨t, ht, htx⟩
  apply mem_ids_where.mpr
  refine ⟨r, hr, hrx, ?_⟩
  apply List.mem_map.mpr
  refine ⟨t, List.mem_filter.mpr ⟨ht, ?_⟩, htx⟩
  apply decide_eq_true
  apply List.mem_map.mpr
  refine ⟨r, List.mem_filter.mpr ⟨hr, decide_eq_true ?_⟩, ?_⟩
  · rw [hrx]
    exact hx
  · rw [htx]

lemma stepIds_mono {tbl edge : List (Nat × Nat)} {S T : List Nat}
    (hsub : ∀ x ∈ S, x ∈ T) :
    ∀ x ∈ stepIds tbl edge S, x ∈ stepIds tbl edge T := by
  intro x hx
  rcases mem_ids_where.mp hx with ⟨r, hr, hrx, hr2⟩
  rcases List.mem_map.mp hr2 with ⟨t, ht, htx⟩
  rcases List.mem_filter.mp ht with ⟨ht1, ht2⟩
  rcases List.mem_map.mp (of_decide_eq_true ht2) with ⟨r2, hr21, hr22⟩
  rcases List.mem_filter.mp hr21 with ⟨hr23, hr24⟩
  apply mem_ids_where.mpr
  refine ⟨r, hr, hrx, ?_⟩
  apply List.mem_map.mpr
  refine ⟨t, List.mem_filter.mpr ⟨ht1, decide_eq_true ?_⟩, htx⟩
  apply List.mem_map.mpr
  refine ⟨r2, List.mem_filter.mpr ⟨hr23,
    decide_eq_true (hsub _ (of_decide_eq_true hr24))⟩, hr22⟩

lemma containing_loop_mono {tbl edge : List (Nat × Nat)} {S T : List Nat}
    (n : Nat) (hsub : ∀ x ∈ S, x ∈ T) :
    ∀ x ∈ containing_loop tbl edge n S, x ∈ containing_loop tbl edge n T := by
  induction n generalizing S T with
  | zero => exact hsub
  | succ k ih =>
    intro x hx
    rw [containing_loop] at hx ⊢
    exact ih (stepIds_mono hsub) x hx

/-- C8: `ids_containing` is monotone in `steps` - for every node table,
root-node edge set, feature value and number of steps `k` at least 1, the
set of root ids returned for `k + 1` steps contains every root id returned
for `k` steps. -/
theorem ids_containing_monotone (tbl edge : List (Nat × Nat))
    (value k : Nat) (hk : 1 ≤ k) :
    ∀ x ∈ ids_containing tbl edge value k,
      x ∈ ids_containing tbl edge value (k + 1) := by
  unfold ids_containing
  have hsucc : k + 1 - 1 = (k - 1) + 1 := by omega
  rw [hsucc, containing_loop]
  have hW : ∀ x ∈ ids_where tbl (fun row => row.2 == value) edge,
      ∃ r ∈ edge, r.1 = x ∧ r.2 ∈ tbl.map Prod.fst :=
    fun x hx => ids_where_witness hx
  exact containing_loop_mono (k - 1) (subset_stepIds hW)

/-- C8 witness: the monotonicity theorem applied to a one-author,
one-publication fixture at one step: publication 1 is returned for one
step and again for two steps. -/
theorem ids_containing_monotone_witness :
    1 ∈ ids_containing [(1, 5)] [(1, 1)] 5 2 :=
  ids_containing_monotone [(1, 5)] [(1, 1)] 5 1 (by decide) 1 (by decide)
